import Mathlib

/-!
Verification of the Replicate provider adapter for a streaming
language-model interface.

The development shallowly embeds the three source concerns:

* the model-reference parser (`parseModelId`, embedding the regex
  `^(?<owner>[^/]+)\/(?<name>[^/:]+)(:(?<version>.+))?$`),
* the request builder (`requestPath`, `requestBody`, the prompt and
  system-prompt transformers),
* the stream transcoder and the two entry points
  (`transcodeEvents`, `doGenerate`, `doStream`).

Strings are modelled as Lean `String`s; the model reference is handled at
the character-list level because the regex is character-driven.
-/

namespace Replicate

/-- A parsed server-sent event, as produced by the SSE decoder: an optional
event name and a raw data payload. -/
structure ParsedEvent where
  event : Option String
  data : String
deriving DecidableEq

/-- The normalized stream-part union emitted by the transcoder: either an
incremental text fragment or a terminal finish marker carrying a reason and
token counts. -/
inductive StreamPart where
  | textDelta (textDelta : String)
  | finish (finishReason : String) (promptTokens : Nat) (completionTokens : Nat)
deriving DecidableEq

/-- A JSON-ish value stored in the request body's `input` object: either a
string produced by the transformers, or an opaque extra-input value. -/
inductive JSValue where
  | str (s : String)
  | other (n : Nat)
deriving DecidableEq

/-- A content block of a user or assistant message: a text block carrying
text, or any non-text block (image, file, tool call, ...). -/
inductive ContentPart where
  | text (t : String)
  | other (n : Nat)
deriving DecidableEq

/-- A prompt message: system (string content), user or assistant (content
blocks), or tool. -/
inductive Message where
  | system (content : String)
  | user (content : List ContentPart)
  | assistant (content : List ContentPart)
  | tool (n : Nat)
deriving DecidableEq

/-- Per-model settings: optional field names, optional transformer
functions, and an extra-input map (a JS `Record`, modelled as an
association list). -/
structure ModelSettings where
  promptName : Option String
  promptTransformer : Option (List Message → String)
  systemPromptName : Option String
  systemPromptTransformer : Option (List Message → String)
  extraInput : List (String × JSValue)

/-- The empty settings object `{}` (every field absent). -/
def defaultSettings : ModelSettings :=
  { promptName := none, promptTransformer := none, systemPromptName := none
    systemPromptTransformer := none, extraInput := [] }

/-- Result of parsing a model reference: owner, name, optional version. -/
structure ModelRef where
  owner : List Char
  name : List Char
  version : Option (List Char)
deriving DecidableEq

/-- The error message thrown for a malformed model reference (it names the
offending string and the expected grammar). -/
def invalidRefMsg (s : List Char) : List Char :=
  String.toList "Invalid reference to model version: " ++ s ++
    String.toList ". Expected format: owner/name or owner/name:version"

/-- JavaScript line terminators: the characters `.` does not match in a
regex without the `s` flag. -/
def isLineTerm (c : Char) : Bool :=
  c == '\n' || c == '\r' || c == '\u2028' || c == '\u2029'

/-- Character class `[^/]` of the regex. -/
def ownerChar (c : Char) : Bool := !(c == '/')

/-- Character class `[^/:]` of the regex. -/
def nameChar (c : Char) : Bool := !(c == '/') && !(c == ':')

/-- Embedding of `parseModelId`, which matches the reference against
`^(?<owner>[^/]+)\/(?<name>[^/:]+)(:(?<version>.+))?$` and throws on
mismatch.  The regex is deterministic: `[^/]+` cannot cross a `/`, so
`owner` is the maximal nonempty prefix without `/` and the literal `/` is
the first slash; `name` is the maximal nonempty run without `/` or `:`
after it; then either the string ends (no version), or a `:` introduces
`(.+)$` — the whole remainder, which must be nonempty and free of line
terminators (`.` matches neither `\n`, `\r`, U+2028 nor U+2029; `$` is
end-of-input).  Backtracking offers no other successful split. -/
def parseModelId (s : List Char) : Except (List Char) ModelRef :=
  let owner := s.takeWhile ownerChar
  match s.dropWhile ownerChar with
  | '/' :: rest =>
    if owner.isEmpty then .error (invalidRefMsg s)
    else
      let name := rest.takeWhile nameChar
      if name.isEmpty then .error (invalidRefMsg s)
      else
        match rest.dropWhile nameChar with
        | [] => .ok ⟨owner, name, none⟩
        | ':' :: ver =>
          if ver.isEmpty || ver.any isLineTerm then .error (invalidRefMsg s)
          else .ok ⟨owner, name, some ver⟩
        | _ :: _ => .error (invalidRefMsg s)
  | _ => .error (invalidRefMsg s)

/-- The grammar of the specification's claim, read literally: the string is
`owner/name` or `owner/name:version`, the owner and name are nonempty and
contain no `/` (the claim calls an empty owner a violation), the name
carries no `:` (a `:` after the `/` starts the version, which is everything
after that first `:`), and the version is a nonempty substring. -/
def ClaimRef (s o n : List Char) (v : Option (List Char)) : Prop :=
  o ≠ [] ∧ '/' ∉ o ∧ n ≠ [] ∧ '/' ∉ n ∧ ':' ∉ n ∧
    match v with
    | none => s = o ++ '/' :: n
    | some ver => ver ≠ [] ∧ s = o ++ '/' :: (n ++ ':' :: ver)

/-- The claim's grammar amended by the one restriction the regex adds: a
version contains no line-terminator character. -/
def AmendedRef (s o n : List Char) (v : Option (List Char)) : Prop :=
  ClaimRef s o n v ∧
    match v with
    | none => True
    | some ver => ver.any isLineTerm = false

instance (s o n : List Char) (v : Option (List Char)) : Decidable (ClaimRef s o n v) := by
  unfold ClaimRef
  cases v <;> exact inferInstance

instance (s o n : List Char) (v : Option (List Char)) : Decidable (AmendedRef s o n v) := by
  unfold AmendedRef
  cases v <;> exact inferInstance

theorem mem_takeWhile {α : Type} {p : α → Bool} :
    ∀ {l : List α} {a : α}, a ∈ l.takeWhile p → p a = true := by
  intro l
  induction l with
  | nil => intro a h; simp [List.takeWhile] at h
  | cons b l ih =>
    intro a h
    rw [List.takeWhile_cons] at h
    by_cases hb : p b = true
    · simp [hb] at h
      rcases h with h | h
      · exact h ▸ hb
      · exact ih h
    · simp [Bool.of_not_eq_true hb] at h

theorem takeWhile_append_of_all {α : Type} {p : α → Bool} (l₁ l₂ : List α)
    (h : ∀ a ∈ l₁, p a = true) :
    (l₁ ++ l₂).takeWhile p = l₁ ++ l₂.takeWhile p ∧
      (l₁ ++ l₂).dropWhile p = l₂.dropWhile p := by
  induction l₁ with
  | nil => simp
  | cons b l ih =>
    have hb : p b = true := h b (by simp)
    have ih' := ih (fun a ha => h a (by simp [ha]))
    simp [List.takeWhile_cons, List.dropWhile_cons, hb, ih'.1, ih'.2]

theorem takeWhile_stops {α : Type} {p : α → Bool} {b : α} (l : List α)
    (hb : p b = false) :
    (b :: l).takeWhile p = [] ∧ (b :: l).dropWhile p = b :: l := by
  simp [List.takeWhile_cons, List.dropWhile_cons, hb]

theorem ownerChar_slash : ownerChar '/' = false := by decide

theorem nameChar_colon : nameChar ':' = false := by decide

theorem ownerChar_of_ne {c : Char} (h : c ≠ '/') : ownerChar c = true := by
  simp [ownerChar, h]

theorem nameChar_of_ne {c : Char} (h1 : c ≠ '/') (h2 : c ≠ ':') : nameChar c = true := by
  simp [nameChar, h1, h2]

theorem isEmpty_false_of_ne_nil {l : List Char} (h : l ≠ []) : l.isEmpty = false := by
  cases l with
  | nil => exact absurd rfl h
  | cons a l => rfl

/-- Soundness of the parser: a successful parse yields a decomposition in
the amended grammar. -/
theorem amendedRef_of_ok {s o n : List Char} {v : Option (List Char)}
    (h : parseModelId s = .ok ⟨o, n, v⟩) : AmendedRef s o n v := by
  have hsplit := List.takeWhile_append_dropWhile (p := ownerChar) (l := s)
  simp only [parseModelId] at h
  split at h
  case h_2 => exact Except.noConfusion h
  case h_1 rest heq =>
    split at h
    · exact Except.noConfusion h
    case isFalse howner =>
      split at h
      · exact Except.noConfusion h
      case isFalse hname =>
        have hsplit2 := List.takeWhile_append_dropWhile (p := nameChar) (l := rest)
        have hoe : s.takeWhile ownerChar ≠ [] := by
          intro hc
          exact howner (by simp [hc])
        have hos : '/' ∉ s.takeWhile ownerChar := by
          intro hc
          have := mem_takeWhile hc
          rw [ownerChar_slash] at this
          exact Bool.noConfusion this
        have hne : rest.takeWhile nameChar ≠ [] := by
          intro hc
          exact hname (by simp [hc])
        have hns : '/' ∉ rest.takeWhile nameChar := by
          intro hc
          have := mem_takeWhile hc
          simp [nameChar] at this
        have hnc : ':' ∉ rest.takeWhile nameChar := by
          intro hc
          have := mem_takeWhile hc
          simp [nameChar] at this
        split at h
        case h_1 heq2 =>
          rw [heq2, List.append_nil] at hsplit2
          simp only [Except.ok.injEq, ModelRef.mk.injEq] at h
          obtain ⟨rfl, rfl, rfl⟩ := h
          refine ⟨⟨hoe, hos, hne, hns, hnc, ?_⟩, trivial⟩
          show s = List.takeWhile ownerChar s ++ '/' :: List.takeWhile nameChar rest
          rw [hsplit2, ← heq]
          exact hsplit.symm
        case h_2 ver heq2 =>
          split at h
          · exact Except.noConfusion h
          case isFalse hver =>
            simp only [Bool.or_eq_true, not_or, Bool.not_eq_true] at hver
            simp only [Except.ok.injEq, ModelRef.mk.injEq] at h
            obtain ⟨rfl, rfl, rfl⟩ := h
            refine ⟨⟨hoe, hos, hne, hns, hnc, ?_, ?_⟩, hver.2⟩
            · intro hc
              rw [hc] at hver
              exact absurd hver.1 (by simp)
            · show s = List.takeWhile ownerChar s ++
                '/' :: (List.takeWhile nameChar rest ++ ':' :: ver)
              rw [← heq2, hsplit2, ← heq]
              exact hsplit.symm
        case h_3 hne1 hne2 =>
          exact Except.noConfusion h

/-- Completeness of the parser: every decomposition in the amended grammar
is parsed, and the returned components are exactly those of the
decomposition. -/
theorem ok_of_amendedRef {s o n : List Char} {v : Option (List Char)}
    (h : AmendedRef s o n v) : parseModelId s = .ok ⟨o, n, v⟩ := by
  obtain ⟨hclaim, hlt⟩ := h
  simp only [ClaimRef] at hclaim
  have hoall : ∀ a ∈ o, ownerChar a = true := by
    intro a ha
    exact ownerChar_of_ne (fun hc => hclaim.2.1 (hc ▸ ha))
  have hnall : ∀ a ∈ n, nameChar a = true := by
    intro a ha
    exact nameChar_of_ne (fun hc => hclaim.2.2.2.1 (hc ▸ ha))
      (fun hc => hclaim.2.2.2.2.1 (hc ▸ ha))
  have hoe : o.isEmpty = false := isEmpty_false_of_ne_nil hclaim.1
  have hne : n.isEmpty = false := isEmpty_false_of_ne_nil hclaim.2.2.1
  cases v with
  | none =>
    obtain hs : s = o ++ '/' :: n := hclaim.2.2.2.2.2
    subst hs
    have h1 := takeWhile_append_of_all o ('/' :: n) hoall
    have h2 := takeWhile_stops (p := ownerChar) n ownerChar_slash
    have h3 := takeWhile_append_of_all n ([] : List Char) hnall
    simp only [List.append_nil, List.takeWhile_nil, List.dropWhile_nil] at h3
    simp only [parseModelId, h1.1, h1.2, h2.1, h2.2, h3.1, h3.2, List.append_nil,
      hoe, hne, Bool.false_eq_true, if_false]
  | some ver =>
    obtain ⟨hver, hs⟩ : ver ≠ [] ∧ s = o ++ '/' :: (n ++ ':' :: ver) := hclaim.2.2.2.2.2
    subst hs
    have hlt' : ver.any isLineTerm = false := hlt
    have hve : ver.isEmpty = false := isEmpty_false_of_ne_nil hver
    have h1 := takeWhile_append_of_all o ('/' :: (n ++ ':' :: ver)) hoall
    have h2 := takeWhile_stops (p := ownerChar) (n ++ ':' :: ver) ownerChar_slash
    have h3 := takeWhile_append_of_all n (':' :: ver) hnall
    have h4 := takeWhile_stops (p := nameChar) ver nameChar_colon
    simp only [parseModelId, h1.1, h1.2, h2.1, h2.2, h3.1, h3.2, h4.1, h4.2,
      List.append_nil, hoe, hne, hve, hlt', Bool.false_eq_true, if_false,
      Bool.or_self]

/-- The parser's error value is always the invalid-reference message naming
the offending string. -/
theorem parseModelId_error_msg {s e : List Char} (h : parseModelId s = .error e) :
    e = invalidRefMsg s := by
  simp only [parseModelId] at h
  repeat' split at h
  all_goals try exact Except.noConfusion h
  all_goals injection h with h
  all_goals exact h.symm

/-- The parser is total: it returns a reference or the invalid-reference
error. -/
theorem parseModelId_cases (s : List Char) :
    (∃ r, parseModelId s = .ok r) ∨ parseModelId s = .error (invalidRefMsg s) := by
  cases hp : parseModelId s with
  | ok r => exact .inl ⟨r, rfl⟩
  | error e =>
    have he := parseModelId_error_msg hp
    refine .inr ?_
    rw [← he]

/-- C3 (counterexample): the string `a/b:c\nd` matches the claim's grammar
(owner `a`, name `b`, version `c\nd` — everything after the first `:`), yet
the parser rejects it, because the regex fragment `.+` for the version does
not match across a line terminator. -/
theorem c3_counterexample :
    ClaimRef (String.toList "a/b:c\nd") (String.toList "a") (String.toList "b")
        (some (String.toList "c\nd")) ∧
      parseModelId (String.toList "a/b:c\nd") =
        .error (invalidRefMsg (String.toList "a/b:c\nd")) := by
  constructor
  · decide
  · rfl

/-- C3 (amended): a string is accepted by the model-reference parser
exactly when it decomposes as `owner/name` or `owner/name:version` (owner
and name nonempty without `/`, name without `:`, version nonempty, the
whole remainder after the first `:` following the `/`, and free of
line-terminator characters), and then the parser returns exactly those
substrings; every other string fails with the invalid-reference error
naming the offending string and the expected grammar. -/
theorem c3_parseModelId_grammar (s : List Char) :
    (∀ o n v, AmendedRef s o n v ↔ parseModelId s = .ok ⟨o, n, v⟩) ∧
      ((∃ o n v, AmendedRef s o n v) ∨ parseModelId s = .error (invalidRefMsg s)) := by
  constructor
  · exact fun o n v => ⟨ok_of_amendedRef, amendedRef_of_ok⟩
  · rcases parseModelId_cases s with ⟨⟨o, n, v⟩, hr⟩ | hr
    · exact .inl ⟨o, n, v, amendedRef_of_ok hr⟩
    · exact .inr hr

/-! ## Prompt transformation (request builder, part 1) -/

/-- `content.filter((c) => c.type === "text").map((c) => c.text)` fused. -/
def textsOf : List ContentPart → List String
  | [] => []
  | .text t :: rest => t :: textsOf rest
  | .other _ :: rest => textsOf rest

/-- How JavaScript stringifies an array of strings (as `Array.prototype.join`
does to a non-string element): its elements separated by commas. -/
def jsArrayToString (xs : List String) : String := String.intercalate "," xs

/-- The `parts` accumulator of `transformPrompt`: the loop pushes, per user
or assistant message, the ARRAY of its text-block texts; system and tool
messages are skipped with `continue`. -/
def promptParts : List Message → List (List String)
  | [] => []
  | .system _ :: rest => promptParts rest
  | .user c :: rest => textsOf c :: promptParts rest
  | .assistant c :: rest => textsOf c :: promptParts rest
  | .tool _ :: rest => promptParts rest

/-- Embedding of the default prompt transformer: builds `parts` (a list of
string ARRAYS) and returns `parts.join("")` — JavaScript stringifies each
element array comma-separated and concatenates the results. -/
def transformPrompt (prompt : List Message) : String :=
  String.join ((promptParts prompt).map jsArrayToString)

/-- The per-message selector of `transformSystemPrompt`'s loop: the content
of a system message, nothing otherwise. -/
def sysContent : Message → Option String
  | .system c => some c
  | _ => none

/-- Embedding of the default system-prompt transformer: collect the system
messages' contents; `parts.length ? parts.join("") : undefined`. -/
def transformSystemPrompt (prompt : List Message) : Option String :=
  let parts := prompt.filterMap sysContent
  if parts.isEmpty then none else some (String.join parts)

/-- The concatenation of all system messages' content (the value the claim
says should be emitted). -/
def systemConcat (prompt : List Message) : String :=
  String.join (prompt.filterMap sysContent)

/-- `settings.promptTransformer ?? transformPrompt` applied to the prompt. -/
def transformedPromptVal (settings : ModelSettings) (prompt : List Message) : String :=
  (settings.promptTransformer.getD transformPrompt) prompt

/-- `(settings.promptTransformer ?? transformSystemPrompt)(prompt)`: the
source's line 154–156 reuses `promptTransformer` here — the dedicated
`systemPromptTransformer` setting is never read. -/
def transformedSystemPrompt (settings : ModelSettings) (prompt : List Message) :
    Option String :=
  match settings.promptTransformer with
  | some f => some (f prompt)
  | none => transformSystemPrompt prompt

/-- The system prompt actually spread into the body:
`...(transformedSystemPrompt ? { [key]: transformedSystemPrompt } : undefined)`.
Both `undefined` and the empty string are falsy. -/
def emittedSystemPrompt (settings : ModelSettings) (prompt : List Message) :
    Option String :=
  match transformedSystemPrompt settings prompt with
  | none => none
  | some sp => if sp = "" then none else some sp

/-! ## The request body object (request builder, part 2) -/

/-- Lookup in a JavaScript object modelled as an association list with
unique keys in insertion order. -/
def oget : List (String × JSValue) → String → Option JSValue
  | [], _ => none
  | (k', v) :: rest, k => if k' = k then some v else oget rest k

/-- Setting a key on a JavaScript object: overwrites in place or appends. -/
def oset : List (String × JSValue) → String → JSValue → List (String × JSValue)
  | [], k, v => [(k, v)]
  | (k', v') :: rest, k, v =>
    if k' = k then (k', v) :: rest else (k', v') :: oset rest k v

/-- Object spread `{ ...obj, ...entries }`: assigns the entries in order,
later keys overwriting earlier ones. -/
def ospread : List (String × JSValue) → List (String × JSValue) → List (String × JSValue)
  | obj, [] => obj
  | obj, (k, v) :: rest => ospread (oset obj k v) rest

/-- `settings.promptName ?? "prompt"`. -/
def promptKey (settings : ModelSettings) : String := settings.promptName.getD "prompt"

/-- `settings.systemPromptName ?? "system_prompt"`. -/
def systemPromptKey (settings : ModelSettings) : String :=
  settings.systemPromptName.getD "system_prompt"

/-- JavaScript truthiness of the optional version string (`if (version)`.. ;
`undefined` and the empty string are falsy). -/
def jsTruthyVersion : Option (List Char) → Bool
  | none => false
  | some v => !v.isEmpty

/-- The request body `{ version?, input }` of `makeLanguageModelPrediction`
(lines 164–176): spread the extra input, then the transformed prompt under
the prompt key, then — if truthy — the transformed system prompt under the
system-prompt key. -/
structure RequestBody where
  version : Option (List Char)
  input : List (String × JSValue)
deriving DecidableEq

/-- Path selection (lines 158–162): the model-specific path by default,
replaced by the generic predictions path when a version is present. -/
def requestPath (ref : ModelRef) : List Char :=
  if jsTruthyVersion ref.version then String.toList "/v1/predictions"
  else String.toList "/v1/models/" ++ ref.owner ++ '/' :: ref.name ++
    String.toList "/predictions"

/-- Embedding of the body construction of lines 164–176. -/
def requestBody (ref : ModelRef) (settings : ModelSettings) (prompt : List Message) :
    RequestBody :=
  let base := ospread [] settings.extraInput
  let withPrompt := oset base (promptKey settings)
    (.str (transformedPromptVal settings prompt))
  { version := if jsTruthyVersion ref.version then ref.version else none
    input :=
      match emittedSystemPrompt settings prompt with
      | some sp => oset withPrompt (systemPromptKey settings) (.str sp)
      | none => withPrompt }

/-! ## Stream transcoding and the two entry points -/

/-- Embedding of the `TransformStream` at the end of
`makeLanguageModelPrediction` (lines 204–231): on event name `done`,
enqueue one finish part (reason `stop`, zero usage) and terminate — the
rest of the input is never read; on `output`, enqueue a text delta with
the raw data; any other event name produces nothing. -/
def transcodeEvents : List ParsedEvent → List StreamPart
  | [] => []
  | e :: rest =>
    if e.event = some "done" then [.finish "stop" 0 0]
    else if e.event = some "output" then .textDelta e.data :: transcodeEvents rest
    else transcodeEvents rest

/-- The upstream error body `{ detail }` validated by the failed-response
handler. -/
structure InitError where
  detail : String
deriving DecidableEq

/-- The validated prediction-initiation response: a nullable output array
and the stream URL. -/
structure Prediction where
  output : Option (List String)
  streamUrl : String
deriving DecidableEq

deriving instance DecidableEq for Except

/-- The environment's observable behaviour for one invocation: the outcome
of the prediction-initiation POST (`postJsonToApi`), and the body of the
stream GET already decoded into parsed server-sent events (`none` models a
response with no body). -/
structure Upstream where
  init : Except InitError Prediction
  streamBody : Option (List ParsedEvent)
deriving DecidableEq

/-- The failures `makeLanguageModelPrediction` can surface: the
invalid-reference throw, the API call error built by the failed-response
handler (message = the upstream `detail`), and the missing-body throw. -/
inductive ProviderError where
  | invalidRef (message : List Char)
  | apiCallError (message : String)
  | missingBody
deriving DecidableEq

/-- The message carried by each error. -/
def errMessage : ProviderError → String
  | .invalidRef m => String.mk m
  | .apiCallError m => m
  | .missingBody => "Missing response body"

/-- Whether the stream-opening GET is reached: in the source,
`fetch(prediction.urls.stream)` runs only after `parseModelId` returned and
`postJsonToApi` resolved successfully. -/
def streamRequested (modelId : List Char) (up : Upstream) : Bool :=
  match parseModelId modelId with
  | .error _ => false
  | .ok _ =>
    match up.init with
    | .error _ => false
    | .ok _ => true

/-- Embedding of `makeLanguageModelPrediction` (lines 140–232): parse the
model reference (throws on mismatch), build the request, POST it (a non-2xx
response surfaces the upstream detail), GET the stream (fails without a
body), and transcode the events. The network's reaction to the request is
abstracted as `up`. -/
def makeLanguageModelPrediction (modelId : List Char) (settings : ModelSettings)
    (prompt : List Message) (up : Upstream) : Except ProviderError (List StreamPart) :=
  match parseModelId modelId with
  | .error m => .error (.invalidRef m)
  | .ok ref =>
    let _path := requestPath ref
    let _body := requestBody ref settings prompt
    match up.init with
    | .error e => .error (.apiCallError e.detail)
    | .ok _pred =>
      match up.streamBody with
      | none => .error .missingBody
      | some events => .ok (transcodeEvents events)

/-- The result of `doGenerate`: joined text, fixed finish reason, zero
usage. -/
structure GenerateResult where
  text : String
  finishReason : String
  promptTokens : Nat
  completionTokens : Nat
deriving DecidableEq

/-- The `for await` loop of `doGenerate`: push `textDelta` fragments,
`break` at the first non-text-delta part. -/
def collectUntilNonText : List StreamPart → List String
  | [] => []
  | .textDelta t :: rest => t :: collectUntilNonText rest
  | .finish _ _ _ :: _ => []

/-- Embedding of `doGenerate` (lines 82–111). -/
def doGenerate (modelId : List Char) (settings : ModelSettings)
    (prompt : List Message) (up : Upstream) : Except ProviderError GenerateResult :=
  match makeLanguageModelPrediction modelId settings prompt up with
  | .error e => .error e
  | .ok parts =>
    .ok { text := String.join (collectUntilNonText parts), finishReason := "stop"
          promptTokens := 0, completionTokens := 0 }

/-- Embedding of `doStream` (lines 112–127): it returns the transcoded
stream unchanged. -/
def doStream (modelId : List Char) (settings : ModelSettings)
    (prompt : List Message) (up : Upstream) : Except ProviderError (List StreamPart) :=
  makeLanguageModelPrediction modelId settings prompt up

/-- Tag check used in claim statements: is a stream part a text delta? -/
def isTextDelta : StreamPart → Bool
  | .textDelta _ => true
  | .finish _ _ _ => false

/-- The text carried by a text-delta part. -/
def deltaText : StreamPart → String
  | .textDelta t => t
  | .finish _ _ _ => ""

/-- Is the event named `done`? -/
def isDone (e : ParsedEvent) : Bool := e.event == some "done"

/-- The stream part an `output` event contributes, if any. -/
def outputPart (e : ParsedEvent) : Option StreamPart :=
  if e.event = some "output" then some (.textDelta e.data) else none

/-- C1: the transcoder turns every parsed event sequence into, in arrival
order, one text-delta per `output` event (carrying the raw data) drawn from
the prefix before the first `done` event, followed — iff some `done` event
occurs — by exactly one finish part with reason `stop` and zero usage; the
first `done` terminates the stream so no later event contributes, and
events with any other name contribute nothing. -/
theorem c1_transcoder (events : List ParsedEvent) :
    transcodeEvents events =
      (events.takeWhile fun e => !isDone e).filterMap outputPart ++
        (if events.any isDone then [.finish "stop" 0 0] else []) := by
  induction events with
  | nil => simp [transcodeEvents]
  | cons e rest ih =>
    by_cases hd : e.event = some "done"
    · have hd' : isDone e = true := by simp [isDone, hd]
      simp [transcodeEvents, hd, hd', List.takeWhile_cons, List.any_cons]
    · have hd' : isDone e = false := by simp [isDone, hd]
      by_cases ho : e.event = some "output"
      · simp [transcodeEvents, hd, hd', ho, List.takeWhile_cons, List.any_cons,
          List.filterMap_cons, outputPart, ih]
      · simp [transcodeEvents, hd, hd', ho, List.takeWhile_cons, List.any_cons,
          List.filterMap_cons, outputPart, ih]

theorem collectUntilNonText_eq (parts : List StreamPart) :
    collectUntilNonText parts = (parts.takeWhile isTextDelta).map deltaText := by
  induction parts with
  | nil => rfl
  | cons p rest ih =>
    cases p with
    | textDelta t =>
      simp [collectUntilNonText, List.takeWhile_cons, isTextDelta, deltaText, ih]
    | finish r a b =>
      simp [collectUntilNonText, List.takeWhile_cons, isTextDelta]

/-- C2: `doGenerate` fails exactly as `doStream` does on the same upstream
behaviour, and on success it returns the concatenation of the textDelta
fields that `doStream`'s stream yields before its first non-text-delta
part, with finish reason `stop` and zero usage. -/
theorem c2_generate_refines_stream (modelId : List Char) (settings : ModelSettings)
    (prompt : List Message) (up : Upstream) :
    (∀ e, doGenerate modelId settings prompt up = .error e ↔
        doStream modelId settings prompt up = .error e) ∧
      (∀ parts, doStream modelId settings prompt up = .ok parts →
        doGenerate modelId settings prompt up =
          .ok { text := String.join ((parts.takeWhile isTextDelta).map deltaText)
                finishReason := "stop", promptTokens := 0, completionTokens := 0 }) := by
  constructor
  · intro e
    unfold doGenerate doStream
    cases makeLanguageModelPrediction modelId settings prompt up <;> simp
  · intro parts hp
    unfold doStream at hp
    unfold doGenerate
    rw [hp]
    simp [collectUntilNonText_eq]

/-- A sample upstream behaviour: initiation succeeds and the stream carries
the spec's example events. -/
def sampleEvents : List ParsedEvent :=
  [⟨some "output", "Hello"⟩, ⟨some "output", " world"⟩, ⟨some "done", ""⟩]

def samplePrediction : Prediction := ⟨none, "https://stream.example"⟩

def sampleUpstream : Upstream := ⟨.ok samplePrediction, some sampleEvents⟩

def sampleModelId : List Char := String.toList "meta/meta-llama-3-70b-instruct"

/-- Witness for C2: on the example stream (`output:"Hello"`,
`output:" world"`, `done`), `doStream` succeeds and `doGenerate` returns
the joined text `"Hello world"`. -/
theorem c2_witness :
    doGenerate sampleModelId defaultSettings [] sampleUpstream =
      .ok { text := "Hello world", finishReason := "stop"
            promptTokens := 0, completionTokens := 0 } :=
  (c2_generate_refines_stream sampleModelId defaultSettings [] sampleUpstream).2
    (transcodeEvents sampleEvents) rfl

theorem transcode_no_done {events : List ParsedEvent}
    (h : ∀ e ∈ events, isDone e = false) :
    transcodeEvents events = events.filterMap outputPart := by
  induction events with
  | nil => rfl
  | cons e rest ih =>
    have hd : (e.event == some "done") = false := h e (by simp)
    have hd' : ¬ e.event = some "done" := by simpa using hd
    have ih' := ih (fun x hx => h x (by simp [hx]))
    by_cases ho : e.event = some "output"
    · simp [transcodeEvents, hd', ho, List.filterMap_cons, outputPart, ih']
    · simp [transcodeEvents, hd', ho, List.filterMap_cons, outputPart, ih']

theorem transcode_no_done_text {events : List ParsedEvent}
    (h : ∀ e ∈ events, isDone e = false) :
    ∀ p ∈ transcodeEvents events, isTextDelta p = true := by
  intro p hp
  rw [transcode_no_done h] at hp
  obtain ⟨e, he, hout⟩ := List.mem_filterMap.mp hp
  unfold outputPart at hout
  split at hout
  · injection hout with hout
    rw [← hout]
    rfl
  · exact Option.noConfusion hout

theorem takeWhile_all_of_all {α : Type} {p : α → Bool} {l : List α}
    (h : ∀ a ∈ l, p a = true) : l.takeWhile p = l := by
  have := takeWhile_append_of_all l ([] : List α) h
  simpa using this.1

/-- C10: if the upstream event stream ends without a `done` event, neither
entry point errors: `doStream` yields only text-delta parts (no finish
part), and `doGenerate` returns the concatenation of all `output` data
received, with reason `stop` and zero usage. -/
theorem c10_stream_ends_without_done (modelId : List Char) (settings : ModelSettings)
    (prompt : List Message) (ref : ModelRef) (pred : Prediction)
    (events : List ParsedEvent)
    (href : parseModelId modelId = .ok ref)
    (h : ∀ e ∈ events, isDone e = false) :
    doStream modelId settings prompt ⟨.ok pred, some events⟩ =
        .ok (transcodeEvents events) ∧
      (∀ p ∈ transcodeEvents events, isTextDelta p = true) ∧
      doGenerate modelId settings prompt ⟨.ok pred, some events⟩ =
        .ok { text := String.join (events.filterMap fun e =>
                  if e.event = some "output" then some e.data else none)
              finishReason := "stop", promptTokens := 0, completionTokens := 0 } := by
  refine ⟨?_, transcode_no_done_text h, ?_⟩
  · simp [doStream, makeLanguageModelPrediction, href]
  · have htext := transcode_no_done_text h
    have hjoin : collectUntilNonText (transcodeEvents events) =
        (transcodeEvents events).map deltaText := by
      rw [collectUntilNonText_eq, takeWhile_all_of_all htext]
    have hmap : (transcodeEvents events).map deltaText =
        events.filterMap fun e => if e.event = some "output" then some e.data else none := by
      rw [transcode_no_done h, List.map_filterMap]
      congr 1
      funext e
      unfold outputPart
      split <;> simp [deltaText]
    simp [doGenerate, makeLanguageModelPrediction, href, hjoin, hmap]

/-- Witness for C10: two `output` events and no `done`. -/
theorem c10_witness :
    doStream sampleModelId defaultSettings []
        ⟨.ok samplePrediction, some [⟨some "output", "Hello"⟩, ⟨some "output", " world"⟩]⟩ =
      .ok [.textDelta "Hello", .textDelta " world"] ∧
      doGenerate sampleModelId defaultSettings []
          ⟨.ok samplePrediction, some [⟨some "output", "Hello"⟩, ⟨some "output", " world"⟩]⟩ =
        .ok { text := "Hello world", finishReason := "stop"
              promptTokens := 0, completionTokens := 0 } := by
  have h := c10_stream_ends_without_done sampleModelId defaultSettings []
    ⟨String.toList "meta", String.toList "meta-llama-3-70b-instruct", none⟩
    samplePrediction [⟨some "output", "Hello"⟩, ⟨some "output", " world"⟩]
    rfl (by decide)
  exact ⟨h.1, h.2.2⟩

/-- C8: when the initiation POST returns a non-2xx response whose body
validates as `{ detail }`, both entry points fail with an error whose
message contains the detail, and the stream-opening GET is never reached. -/
theorem c8_init_error (modelId : List Char) (settings : ModelSettings)
    (prompt : List Message) (ref : ModelRef) (d : String)
    (body : Option (List ParsedEvent))
    (href : parseModelId modelId = .ok ref) :
    doStream modelId settings prompt ⟨.error ⟨d⟩, body⟩ = .error (.apiCallError d) ∧
      doGenerate modelId settings prompt ⟨.error ⟨d⟩, body⟩ = .error (.apiCallError d) ∧
      streamRequested modelId ⟨.error ⟨d⟩, body⟩ = false ∧
      (∃ pre post, errMessage (.apiCallError d) = pre ++ d ++ post) := by
  refine ⟨?_, ?_, ?_, "", "", ?_⟩
  · simp [doStream, makeLanguageModelPrediction, href]
  · simp [doGenerate, makeLanguageModelPrediction, href]
  · simp [streamRequested, href]
  · simp [errMessage]

/-- Witness for C8 at the spec's example detail string. -/
theorem c8_witness :
    doStream sampleModelId defaultSettings [] ⟨.error ⟨"rate limited"⟩, none⟩ =
        .error (.apiCallError "rate limited") ∧
      streamRequested sampleModelId ⟨.error ⟨"rate limited"⟩, none⟩ = false := by
  have h := c8_init_error sampleModelId defaultSettings []
    ⟨String.toList "meta", String.toList "meta-llama-3-70b-instruct", none⟩
    "rate limited" none rfl
  exact ⟨h.1, h.2.2.1⟩

theorem textsOf_append (c₁ c₂ : List ContentPart) :
    textsOf (c₁ ++ c₂) = textsOf c₁ ++ textsOf c₂ := by
  induction c₁ with
  | nil => rfl
  | cons p rest ih => cases p <;> simp [textsOf, ih]

theorem promptParts_append (l₁ l₂ : List Message) :
    promptParts (l₁ ++ l₂) = promptParts l₁ ++ promptParts l₂ := by
  induction l₁ with
  | nil => rfl
  | cons m rest ih => cases m <;> simp [promptParts, ih]

theorem promptParts_eq_filterMap (prompt : List Message) :
    promptParts prompt = prompt.filterMap fun m => match m with
      | .system _ => none
      | .tool _ => none
      | .user c => some (textsOf c)
      | .assistant c => some (textsOf c) := by
  induction prompt with
  | nil => rfl
  | cons m rest ih => cases m <;> simp [promptParts, List.filterMap_cons, ih]

/-- C5 (counterexample): on a single user message with the two text blocks
`"a"` and `"b"`, the default prompt transformer returns `"a,b"`, not the
plain concatenation `"ab"`: the loop pushes each message's array of texts
and `join("")` stringifies every pushed array comma-separated. -/
theorem c5_counterexample :
    transformPrompt [Message.user [ContentPart.text "a", ContentPart.text "b"]] = "a,b" ∧
      transformPrompt [Message.user [ContentPart.text "a", ContentPart.text "b"]] ≠
        String.join ["a", "b"] := by
  constructor
  · rfl
  · decide

/-- C5 (amended): the default prompt transformer returns the concatenation,
in message order, of the per-message COMMA-JOINED texts of the text-type
content blocks of user and assistant messages — a comma separates text
blocks within one message, nothing separates messages — and system
messages, tool messages and non-text content blocks contribute nothing. -/
theorem c5_transformPrompt (prompt : List Message) :
    transformPrompt prompt =
        String.join (prompt.filterMap fun m => match m with
          | .system _ => none
          | .tool _ => none
          | .user c => some (String.intercalate "," (textsOf c))
          | .assistant c => some (String.intercalate "," (textsOf c))) ∧
      (∀ pre post s', transformPrompt (pre ++ Message.system s' :: post) =
          transformPrompt (pre ++ post)) ∧
      (∀ pre post j, transformPrompt (pre ++ Message.tool j :: post) =
          transformPrompt (pre ++ post)) ∧
      (∀ pre post c₁ c₂ j,
        transformPrompt (pre ++ Message.user (c₁ ++ ContentPart.other j :: c₂) :: post) =
          transformPrompt (pre ++ Message.user (c₁ ++ c₂) :: post)) ∧
      (∀ pre post c₁ c₂ j,
        transformPrompt (pre ++ Message.assistant (c₁ ++ ContentPart.other j :: c₂) :: post) =
          transformPrompt (pre ++ Message.assistant (c₁ ++ c₂) :: post)) := by
  refine ⟨?_, ?_, ?_, ?_, ?_⟩
  · have hl : (promptParts prompt).map jsArrayToString =
        prompt.filterMap fun m => match m with
          | Message.system _ => none
          | Message.tool _ => none
          | Message.user c => some (String.intercalate "," (textsOf c))
          | Message.assistant c => some (String.intercalate "," (textsOf c)) := by
      induction prompt with
      | nil => rfl
      | cons m rest ih =>
        cases m <;> simp [promptParts, List.filterMap_cons, jsArrayToString, ih]
    unfold transformPrompt
    rw [hl]
  · intro pre post s'
    simp [transformPrompt, promptParts_append, promptParts]
  · intro pre post j
    simp [transformPrompt, promptParts_append, promptParts]
  · intro pre post c₁ c₂ j
    simp [transformPrompt, promptParts_append, promptParts, textsOf_append, textsOf]
  · intro pre post c₁ c₂ j
    simp [transformPrompt, promptParts_append, promptParts, textsOf_append, textsOf]

theorem oget_oset (obj : List (String × JSValue)) (k k' : String) (v : JSValue) :
    oget (oset obj k v) k' = if k = k' then some v else oget obj k' := by
  induction obj with
  | nil => simp [oset, oget]
  | cons p rest ih =>
    obtain ⟨k₀, v₀⟩ := p
    by_cases h1 : k₀ = k
    · subst h1
      by_cases h2 : k₀ = k' <;> simp [oset, oget, h2]
    · by_cases h2 : k₀ = k'
      · subst h2
        have h4 : ¬ k = k₀ := fun hc => h1 hc.symm
        simp [oset, oget, h1, h4]
      · simp [oset, oget, h1, h2, ih]

theorem oget_ospread_not_mem :
    ∀ (entries obj : List (String × JSValue)) (k : String),
      k ∉ entries.map Prod.fst →
      oget (ospread obj entries) k = oget obj k := by
  intro entries
  induction entries with
  | nil => intro obj k h; rfl
  | cons p rest ih =>
    intro obj k h
    obtain ⟨k₀, v₀⟩ := p
    simp only [List.map_cons, List.mem_cons, not_or] at h
    show oget (ospread (oset obj k₀ v₀) rest) k = oget obj k
    rw [ih (oset obj k₀ v₀) k h.2, oget_oset]
    have : ¬ k₀ = k := fun hc => h.1 hc.symm
    simp [this]

theorem oget_ospread_mem :
    ∀ (entries obj : List (String × JSValue)) (k : String) (v : JSValue),
      (entries.map Prod.fst).Nodup → (k, v) ∈ entries →
      oget (ospread obj entries) k = some v := by
  intro entries
  induction entries with
  | nil => intro obj k v _ hm; cases hm
  | cons p rest ih =>
    intro obj k v hnd hm
    obtain ⟨k₀, v₀⟩ := p
    simp only [List.map_cons, List.nodup_cons] at hnd
    rcases List.mem_cons.mp hm with heq | hm'
    · obtain ⟨rfl, rfl⟩ : k = k₀ ∧ v = v₀ := by simpa using heq
      show oget (ospread (oset obj k v) rest) k = some v
      rw [oget_ospread_not_mem rest _ k hnd.1, oget_oset]
      simp
    · show oget (ospread (oset obj k₀ v₀) rest) k = some v
      exact ih (oset obj k₀ v₀) k v hnd.2 hm'

/-- C4: a parsed reference carrying a version routes to the generic
predictions path and the body carries the version; one without a version
routes to the model-specific owner/name path and the body has no version
key. -/
theorem c4_routing (s : List Char) (ref : ModelRef) (settings : ModelSettings)
    (prompt : List Message) (h : parseModelId s = .ok ref) :
    (∀ ver, ref.version = some ver →
        requestPath ref = String.toList "/v1/predictions" ∧
          (requestBody ref settings prompt).version = some ver) ∧
      (ref.version = none →
        requestPath ref = String.toList "/v1/models/" ++ ref.owner ++ '/' :: ref.name ++
            String.toList "/predictions" ∧
          (requestBody ref settings prompt).version = none) := by
  obtain ⟨o, n, v⟩ := ref
  have hA := amendedRef_of_ok h
  constructor
  · intro ver hv
    replace hv : v = some ver := hv
    subst hv
    have hne : ver ≠ [] := by
      have hc := hA.1
      simp only [ClaimRef] at hc
      exact hc.2.2.2.2.2.1
    have ht : jsTruthyVersion (some ver) = true := by
      simp [jsTruthyVersion, isEmpty_false_of_ne_nil hne]
    exact ⟨by simp [requestPath, ht], by simp [requestBody, ht]⟩
  · intro hv
    replace hv : v = none := hv
    subst hv
    exact ⟨by simp [requestPath, jsTruthyVersion], by simp [requestBody, jsTruthyVersion]⟩

/-- Witness for C4: the versioned reference `a/b:1` and the unversioned
reference `a/b`. -/
theorem c4_witness :
    (requestPath ⟨String.toList "a", String.toList "b", some (String.toList "1")⟩ =
        String.toList "/v1/predictions" ∧
      (requestBody ⟨String.toList "a", String.toList "b", some (String.toList "1")⟩
          defaultSettings []).version = some (String.toList "1")) ∧
      (requestPath ⟨String.toList "a", String.toList "b", none⟩ =
          String.toList "/v1/models/" ++ String.toList "a" ++ '/' :: String.toList "b" ++
            String.toList "/predictions" ∧
        (requestBody ⟨String.toList "a", String.toList "b", none⟩
            defaultSettings []).version = none) :=
  ⟨(c4_routing (String.toList "a/b:1") ⟨String.toList "a", String.toList "b",
      some (String.toList "1")⟩ defaultSettings [] rfl).1 (String.toList "1") rfl,
    (c4_routing (String.toList "a/b") ⟨String.toList "a", String.toList "b", none⟩
      defaultSettings [] rfl).2 rfl⟩

/-- Under default settings the emitted system prompt is the concatenation
of the system contents when that is nonempty, and nothing otherwise. -/
theorem emitted_default (prompt : List Message) :
    emittedSystemPrompt defaultSettings prompt =
      if systemConcat prompt = "" then none else some (systemConcat prompt) := by
  unfold emittedSystemPrompt transformedSystemPrompt defaultSettings
    transformSystemPrompt systemConcat
  by_cases hp : (prompt.filterMap sysContent).isEmpty
  · have hnil : prompt.filterMap sysContent = [] := by
      simpa [List.isEmpty_iff] using hp
    simp [hp, hnil, String.join]
  · simp [hp]

/-- C6 (counterexample): under default settings, a prompt with one system
message of EMPTY content yields a body with no system-prompt field at all
(the transformer returns `""`, which is falsy and is dropped by the
spread), although the claim demands the field carrying the concatenation
of the system messages' content. -/
theorem c6_counterexample :
    oget (requestBody ⟨String.toList "a", String.toList "b", none⟩ defaultSettings
        [Message.system ""]).input "system_prompt" = none ∧
      ¬ (oget (requestBody ⟨String.toList "a", String.toList "b", none⟩ defaultSettings
          [Message.system ""]).input "system_prompt" =
        some (.str (systemConcat [Message.system ""]))) := by
  constructor
  · rfl
  · decide

/-- C6 (amended): under default settings, the body carries the
concatenation of the system messages' content under `"system_prompt"`
exactly when that concatenation is nonempty; with no system messages — or
when the system content concatenates to the empty string — no
system-prompt field is present at all. -/
theorem c6_system_prompt_field (ref : ModelRef) (prompt : List Message) :
    (systemConcat prompt = "" →
        oget (requestBody ref defaultSettings prompt).input "system_prompt" = none) ∧
      (systemConcat prompt ≠ "" →
        oget (requestBody ref defaultSettings prompt).input "system_prompt" =
          some (.str (systemConcat prompt))) := by
  have he := emitted_default prompt
  constructor
  · intro hc
    rw [if_pos hc] at he
    simp only [defaultSettings] at he
    simp [requestBody, defaultSettings, he, oget_oset, promptKey, oget, ospread]
  · intro hc
    rw [if_neg hc] at he
    simp only [defaultSettings] at he
    simp [requestBody, defaultSettings, he, oget_oset, systemPromptKey]

/-- Witness for C6 (amended): one system message with nonempty content
produces the field; an empty prompt does not. -/
theorem c6_witness :
    oget (requestBody ⟨String.toList "a", String.toList "b", none⟩ defaultSettings
        [Message.system "Be nice."]).input "system_prompt" =
      some (.str (systemConcat [Message.system "Be nice."])) ∧
      oget (requestBody ⟨String.toList "a", String.toList "b", none⟩ defaultSettings
          ([] : List Message)).input "system_prompt" = none :=
  ⟨(c6_system_prompt_field ⟨String.toList "a", String.toList "b", none⟩
      [Message.system "Be nice."]).2 (by decide),
    (c6_system_prompt_field ⟨String.toList "a", String.toList "b", none⟩ []).1 rfl⟩

/-- C7: when `promptTransformer` is supplied, the system-prompt value is
computed by applying that same transformer — landing in the body under the
system-prompt key when nonempty — and the dedicated
`systemPromptTransformer` setting is never read: changing it alters
neither the request body nor either entry point; without a
`promptTransformer`, the default system-prompt transformer is used. -/
theorem c7_system_prompt_transformer (ref : ModelRef) (settings : ModelSettings)
    (prompt : List Message) :
    (∀ f, settings.promptTransformer = some f →
        transformedSystemPrompt settings prompt = some (f prompt) ∧
          (f prompt ≠ "" →
            oget (requestBody ref settings prompt).input (systemPromptKey settings) =
              some (.str (f prompt)))) ∧
      (settings.promptTransformer = none →
        transformedSystemPrompt settings prompt = transformSystemPrompt prompt) ∧
      (∀ g, requestBody ref { settings with systemPromptTransformer := g } prompt =
          requestBody ref settings prompt) ∧
      (∀ g modelId up,
        doGenerate modelId { settings with systemPromptTransformer := g } prompt up =
            doGenerate modelId settings prompt up ∧
          doStream modelId { settings with systemPromptTransformer := g } prompt up =
            doStream modelId settings prompt up) := by
  refine ⟨?_, ?_, ?_, ?_⟩
  · intro f hf
    have h1 : transformedSystemPrompt settings prompt = some (f prompt) := by
      unfold transformedSystemPrompt
      rw [hf]
    refine ⟨h1, fun hne => ?_⟩
    have he : emittedSystemPrompt settings prompt = some (f prompt) := by
      unfold emittedSystemPrompt
      rw [h1]
      simp [hne]
    simp [requestBody, he, oget_oset]
  · intro hf
    unfold transformedSystemPrompt
    rw [hf]
  · intro g
    rfl
  · intro g modelId up
    exact ⟨rfl, rfl⟩

/-- Settings with a custom prompt transformer and a (supposedly unused)
custom system-prompt transformer. -/
def customSettings : ModelSettings :=
  { promptName := none, promptTransformer := some fun _ => "CUSTOM"
    systemPromptName := none, systemPromptTransformer := some fun _ => "UNUSED"
    extraInput := [] }

/-- Witness for C7: with `customSettings` the system-prompt value comes
from the main prompt transformer, and dropping the
`systemPromptTransformer` changes nothing. -/
theorem c7_witness :
    transformedSystemPrompt customSettings [] = some "CUSTOM" ∧
      oget (requestBody ⟨String.toList "a", String.toList "b", none⟩ customSettings []).input
          (systemPromptKey customSettings) = some (.str "CUSTOM") ∧
      requestBody ⟨String.toList "a", String.toList "b", none⟩
          { customSettings with systemPromptTransformer := none } [] =
        requestBody ⟨String.toList "a", String.toList "b", none⟩ customSettings [] := by
  have h := c7_system_prompt_transformer ⟨String.toList "a", String.toList "b", none⟩
    customSettings []
  have h1 := h.1 (fun _ => "CUSTOM") rfl
  exact ⟨h1.1, h1.2 (by decide), h.2.2.1 none⟩

/-- C9: every extraInput key–value pair is present in the body's input
object, except that the configured prompt key always maps to the
transformed prompt, and — when a system-prompt field is emitted — the
configured system-prompt key maps to the emitted system prompt instead of
the extraInput value. -/
theorem c9_extra_input (ref : ModelRef) (settings : ModelSettings) (prompt : List Message)
    (k : String) (v : JSValue)
    (hnodup : (settings.extraInput.map Prod.fst).Nodup)
    (hmem : (k, v) ∈ settings.extraInput) :
    oget (requestBody ref settings prompt).input k =
      some (match emittedSystemPrompt settings prompt with
        | some sp =>
          if k = systemPromptKey settings then .str sp
          else if k = promptKey settings then .str (transformedPromptVal settings prompt)
          else v
        | none =>
          if k = promptKey settings then .str (transformedPromptVal settings prompt)
          else v) := by
  have hbase : oget (ospread [] settings.extraInput) k = some v :=
    oget_ospread_mem settings.extraInput [] k v hnodup hmem
  simp only [requestBody]
  cases he : emittedSystemPrompt settings prompt with
  | some sp =>
    simp only [he]
    by_cases h1 : k = systemPromptKey settings
    · rw [oget_oset]
      simp [h1]
    · by_cases h2 : k = promptKey settings
      · rw [oget_oset]
        have t1 : ¬ systemPromptKey settings = k := fun hc => h1 hc.symm
        rw [if_neg t1, oget_oset, if_neg h1, if_pos h2, if_pos h2.symm]
      · rw [oget_oset]
        have t1 : ¬ systemPromptKey settings = k := fun hc => h1 hc.symm
        rw [if_neg t1, oget_oset]
        have t2 : ¬ promptKey settings = k := fun hc => h2 hc.symm
        rw [if_neg t2]
        simp [h1, h2, hbase]
  | none =>
    simp only [he]
    by_cases h2 : k = promptKey settings
    · rw [oget_oset]
      simp [h2]
    · rw [oget_oset]
      have t2 : ¬ promptKey settings = k := fun hc => h2 hc.symm
      rw [if_neg t2]
      simp [h2, hbase]

/-- Settings carrying extra input that collides with both default keys. -/
def extraSettings : ModelSettings :=
  { promptName := none, promptTransformer := none, systemPromptName := none
    systemPromptTransformer := none
    extraInput := [("prompt", .other 1), ("top_p", .other 2), ("system_prompt", .other 3)] }

/-- The prompt used by the C9 witness. -/
def extraPrompt : List Message := [Message.system "S", Message.user [ContentPart.text "hi"]]

/-- Witness for C9: a non-colliding extra key survives; the `prompt` and
`system_prompt` collisions are overridden by the transformed values. -/
theorem c9_witness :
    oget (requestBody ⟨String.toList "a", String.toList "b", none⟩ extraSettings
        extraPrompt).input "top_p" = some (.other 2) ∧
      oget (requestBody ⟨String.toList "a", String.toList "b", none⟩ extraSettings
          extraPrompt).input "prompt" =
        some (.str (transformedPromptVal extraSettings extraPrompt)) ∧
      oget (requestBody ⟨String.toList "a", String.toList "b", none⟩ extraSettings
          extraPrompt).input "system_prompt" = some (.str "S") :=
  ⟨c9_extra_input ⟨String.toList "a", String.toList "b", none⟩ extraSettings extraPrompt
      "top_p" (.other 2) (by decide) (by decide),
    c9_extra_input ⟨String.toList "a", String.toList "b", none⟩ extraSettings extraPrompt
      "prompt" (.other 1) (by decide) (by decide),
    c9_extra_input ⟨String.toList "a", String.toList "b", none⟩ extraSettings extraPrompt
      "system_prompt" (.other 3) (by decide) (by decide)⟩

end Replicate
